import Mathlib

/-!
# Verification of the ECAL interpreter core (rhedin/Abe_ecal)

Shallow embedding of the parts of the ECAL interpreter that the claims
concern: the runtime value model, guard truthiness, assignment and loop
evaluation (interpreter/rt_assign.go, the loop/guard/break/continue
runtimes), the `range` built-in iterator (interpreter/func_provider.go),
the node-runtime registry, the debugger value extraction/injection
(the `ecalDebugger`), and `splitModuleAndName` (stdlib/stdlib.go).

ECAL numbers are Go `float64` values; in this development they are
modelled as rationals, which agrees with the float semantics on all the
concrete (small-integer) inputs exercised below.
-/

namespace Ecal

/--
Runtime values of the ECAL interpreter.  In the Go source a value is an
`interface{}` holding `nil`, `bool`, `float64`, `string`,
`[]interface{}`, `map[interface{}]interface{}` or a function object.
`null` models the Go `nil` interface; `vmap` models a Go map as its
list of key/value entries.  Function objects are not modelled: no
claim below mentions them (they would iterate and coerce like the
other scalar values).
-/
inductive GoVal where
  | null : GoVal
  | boolean (b : Bool) : GoVal
  | num (q : ℚ) : GoVal
  | str (s : String) : GoVal
  | list (elems : List GoVal) : GoVal
  | vmap (entries : List (GoVal × GoVal)) : GoVal
deriving Repr

mutual

/-- Decidable equality of runtime values (Go `==` on comparable values
is structural; the evaluator additionally compares lists and maps
structurally). -/
def decEqVal : (a b : GoVal) → Decidable (a = b)
  | .null, .null => isTrue rfl
  | .null, .boolean _ => isFalse (by intro h; exact GoVal.noConfusion h)
  | .null, .num _ => isFalse (by intro h; exact GoVal.noConfusion h)
  | .null, .str _ => isFalse (by intro h; exact GoVal.noConfusion h)
  | .null, .list _ => isFalse (by intro h; exact GoVal.noConfusion h)
  | .null, .vmap _ => isFalse (by intro h; exact GoVal.noConfusion h)
  | .boolean _, .null => isFalse (by intro h; exact GoVal.noConfusion h)
  | .boolean a, .boolean b =>
    if h : a = b then isTrue (by rw [h]) else
      isFalse (by intro hh; injection hh; contradiction)
  | .boolean _, .num _ => isFalse (by intro h; exact GoVal.noConfusion h)
  | .boolean _, .str _ => isFalse (by intro h; exact GoVal.noConfusion h)
  | .boolean _, .list _ => isFalse (by intro h; exact GoVal.noConfusion h)
  | .boolean _, .vmap _ => isFalse (by intro h; exact GoVal.noConfusion h)
  | .num _, .null => isFalse (by intro h; exact GoVal.noConfusion h)
  | .num _, .boolean _ => isFalse (by intro h; exact GoVal.noConfusion h)
  | .num a, .num b =>
    if h : a = b then isTrue (by rw [h]) else
      isFalse (by intro hh; injection hh; contradiction)
  | .num _, .str _ => isFalse (by intro h; exact GoVal.noConfusion h)
  | .num _, .list _ => isFalse (by intro h; exact GoVal.noConfusion h)
  | .num _, .vmap _ => isFalse (by intro h; exact GoVal.noConfusion h)
  | .str _, .null => isFalse (by intro h; exact GoVal.noConfusion h)
  | .str _, .boolean _ => isFalse (by intro h; exact GoVal.noConfusion h)
  | .str _, .num _ => isFalse (by intro h; exact GoVal.noConfusion h)
  | .str a, .str b =>
    if h : a = b then isTrue (by rw [h]) else
      isFalse (by intro hh; injection hh; contradiction)
  | .str _, .list _ => isFalse (by intro h; exact GoVal.noConfusion h)
  | .str _, .vmap _ => isFalse (by intro h; exact GoVal.noConfusion h)
  | .list _, .null => isFalse (by intro h; exact GoVal.noConfusion h)
  | .list _, .boolean _ => isFalse (by intro h; exact GoVal.noConfusion h)
  | .list _, .num _ => isFalse (by intro h; exact GoVal.noConfusion h)
  | .list _, .str _ => isFalse (by intro h; exact GoVal.noConfusion h)
  | .list xs, .list ys =>
    match decEqValList xs ys with
    | isTrue h => isTrue (by rw [h])
    | isFalse h => isFalse (by intro hh; injection hh; contradiction)
  | .list _, .vmap _ => isFalse (by intro h; exact GoVal.noConfusion h)
  | .vmap _, .null => isFalse (by intro h; exact GoVal.noConfusion h)
  | .vmap _, .boolean _ => isFalse (by intro h; exact GoVal.noConfusion h)
  | .vmap _, .num _ => isFalse (by intro h; exact GoVal.noConfusion h)
  | .vmap _, .str _ => isFalse (by intro h; exact GoVal.noConfusion h)
  | .vmap _, .list _ => isFalse (by intro h; exact GoVal.noConfusion h)
  | .vmap xs, .vmap ys =>
    match decEqValPairs xs ys with
    | isTrue h => isTrue (by rw [h])
    | isFalse h => isFalse (by intro hh; injection hh; contradiction)
termination_by a _ => sizeOf a

/-- Decidable equality of value lists. -/
def decEqValList : (xs ys : List GoVal) → Decidable (xs = ys)
  | [], [] => isTrue rfl
  | [], _ :: _ => isFalse (by intro h; exact List.noConfusion h)
  | _ :: _, [] => isFalse (by intro h; exact List.noConfusion h)
  | x :: xs, y :: ys =>
    match decEqVal x y with
    | isFalse h => isFalse (by intro hh; injection hh; contradiction)
    | isTrue h1 =>
      match decEqValList xs ys with
      | isTrue h2 => isTrue (by rw [h1, h2])
      | isFalse h => isFalse (by intro hh; injection hh; contradiction)
termination_by xs _ => sizeOf xs

/-- Decidable equality of key/value entry lists. -/
def decEqValPairs : (xs ys : List (GoVal × GoVal)) → Decidable (xs = ys)
  | [], [] => isTrue rfl
  | [], _ :: _ => isFalse (by intro h; exact List.noConfusion h)
  | _ :: _, [] => isFalse (by intro h; exact List.noConfusion h)
  | (k, v) :: xs, (k', v') :: ys =>
    match decEqVal k k' with
    | isFalse h =>
      isFalse (by intro hh; injection hh with h1 h2; injection h1; contradiction)
    | isTrue hk =>
      match decEqVal v v' with
      | isFalse h =>
        isFalse (by intro hh; injection hh with h1 h2; injection h1; contradiction)
      | isTrue hv =>
        match decEqValPairs xs ys with
        | isTrue ht => isTrue (by rw [hk, hv, ht])
        | isFalse h => isFalse (by intro hh; injection hh; contradiction)
termination_by xs _ => sizeOf xs

end

instance : DecidableEq GoVal := decEqVal

/--
Error kinds of `util/error.go` (the `Err...` values), including the
three control-flow sentinels that share the error channel.
-/
inductive ErrKind where
  | runtimeError
  | unknownConstruct
  | invalidConstruct
  | invalidState
  | varAccess
  | notANumber
  | notABoolean
  | notAList
  | notAMap
  | notAListOrMap
  | sentinelReturn
  | isIterator
  | endOfIteration
  | continueIteration
deriving DecidableEq, Repr

/--
An error travelling through the evaluator.  `rt` models a
`*util.RuntimeError` (carrying its `Type` and `Detail`); `goErr` models
a plain Go error built with `fmt.Errorf` (carrying only its message).
Source attribution (source name, line, position) is not modelled.
-/
inductive Err where
  | rt (kind : ErrKind) (detail : String) : Err
  | goErr (msg : String) : Err
deriving DecidableEq, Repr

-- ------------------------------------------------------------------
-- Variable scope
-- ------------------------------------------------------------------

/--
Modelled from the spec: the `scope` package is not under src/.  Spec
§4.B: `get` returns `(value, found)`; `set(name, v)` writes in the
nearest ancestor that defines `name`, otherwise in self.  The claims
below only ever read a binding from the same scope node that was
written, so a scope is modelled as a single node: an association list
from identifiers to values (first binding wins on lookup; `set`
overwrites an existing binding in place, otherwise appends).
-/
abbrev Scope := List (String × GoVal)

/-- Spec §4.B / §8: `get` returns the value bound to `n`, if any. -/
def Scope.getValue (vs : Scope) (n : String) : Option GoVal :=
  (vs.find? (fun p => p.1 = n)).map (·.2)

/-- Spec §4.B: `set` overwrites the binding of `n` if present,
otherwise creates it. -/
def Scope.setValue (vs : Scope) (n : String) (v : GoVal) : Scope :=
  match vs with
  | [] => [(n, v)]
  | (m, w) :: rest =>
    if m = n then (m, v) :: rest else (m, w) :: Scope.setValue rest n v

-- ------------------------------------------------------------------
-- Guard truthiness (guardRuntime.Eval, part_003 lines 390-408)
-- ------------------------------------------------------------------

/-- The Go comparison `ret == nil`: true exactly for the nil
interface, which models the ECAL `Null` value. -/
def goIsNil : GoVal → Bool
  | .null => true
  | _ => false

/-- The Go comparison `ret == false`: interface equality holds exactly
when the dynamic type is `bool` and the value is `false`. -/
def goIsFalse : GoVal → Bool
  | .boolean false => true
  | _ => false

/-- The Go comparison `ret == 0`: the untyped literal `0` is boxed
with dynamic type `int`.  ECAL runtime values are `nil`, `bool`,
`float64`, `string`, `[]interface{}` or a map — never an `int` — so
the two interfaces always differ in dynamic type and the comparison is
false for every runtime value. -/
def goIsIntZero : GoVal → Bool := fun _ => false

/-- The guard expression of `guardRuntime.Eval`:
`res = ret != nil && ret != false && ret != 0`. -/
def guardTruth (ret : GoVal) : Bool :=
  !goIsNil ret && !goIsFalse ret && !goIsIntZero ret

/-- `guardRuntime.Eval`: evaluate the condition (here: its already
computed result), then coerce with `guardTruth`; errors of the
condition propagate. -/
def guardEval (cond : Except Err GoVal) : Except Err Bool :=
  match cond with
  | .error e => .error e
  | .ok ret => .ok (guardTruth ret)

/-- The truthiness rule as the spec words it (§4.A): everything is
true except `Null`, `Bool(false)`, `Number(0)`, the empty string and
empty list/map.  Stated only to compare against the source's
`guardTruth`. -/
def specTruthy : GoVal → Bool
  | .null => false
  | .boolean b => b
  | .num q => decide (q ≠ 0)
  | .str s => decide (s ≠ "")
  | .list l => decide (l ≠ [])
  | .vmap m => decide (m ≠ [])

/-- The truthiness rule the source actually implements, in closed
form: false exactly for `Null` and `Bool(false)`. -/
def nullFalseTruthy : GoVal → Bool
  | .null => false
  | .boolean b => b
  | _ => true

-- ------------------------------------------------------------------
-- Assignment (assignmentRuntime.Eval, interpreter/rt_assign.go 78-122)
-- ------------------------------------------------------------------

/--
`assignmentRuntime.Eval`.  `leftSide` is the list of target
identifiers computed by `Validate` (a single identifier `a := …` and
the one-name list pattern `[a] := …` both yield a one-element
`leftSide`).  `rhs` is the result of evaluating the right side once.
The Go method mutates the scope and returns `(nil, err)`; this is
modelled as a triple (returned value, error if any, scope
afterwards). -/
def assignEval : List String → Except Err GoVal → Scope →
    Option GoVal × Option Err × Scope
  | _, .error e, vs => (none, some e, vs)
  | leftSide, .ok val, vs =>
    if h : leftSide.length = 1 then
      (none, none, vs.setValue (leftSide.head (by intro hh; simp [hh] at h)) val)
    else
      match val with
      | .list valList =>
        if leftSide.length ≠ valList.length then
          (none, some (.rt .invalidState
            ("Assigned number of variables is different to number of values (" ++
              toString leftSide.length ++ " variables vs " ++
              toString valList.length ++ " values)")), vs)
        else
          (none, none, (leftSide.zip valList).foldl
            (fun s p => s.setValue p.1 p.2) vs)
      | _ =>
        (none, some (.rt .invalidState "Result is not a list"), vs)

-- ------------------------------------------------------------------
-- Statement runtimes and the loop statement (part_003 lines 416-728)
-- ------------------------------------------------------------------

/-- Result of evaluating a statement: the error, if any, and the
scope afterwards (Go mutates the scope in place, so the finished
effects of a failing body are kept). -/
abbrev StmRes := Option Err × Scope

/-- A statement evaluator (the `Eval` of a runtime component, with the
statement value — always `nil` for statements — omitted). -/
abbrev Runtime := Scope → StmRes

/-- `breakRuntime.Eval`: raises the `EndOfIteration` sentinel. -/
def breakEval : Runtime := fun vs => (some (.rt .endOfIteration ""), vs)

/-- `continueRuntime.Eval`: raises the `ContinueIteration` sentinel. -/
def continueEval : Runtime := fun vs => (some (.rt .continueIteration ""), vs)

/-- The "check for continue" blocks of `loopRuntime.Eval`: a
`*util.RuntimeError` of type `ErrContinueIteration` is cleared, any
other error is kept. -/
def clearContinue : Option Err → Option Err
  | some (.rt .continueIteration _) => none
  | e => e

/--
The guarded branch of `loopRuntime.Eval` (`for <guard> { … }`,
part_003 lines 486-514): evaluate the guard; while it is true run the
body, clearing only the `ContinueIteration` sentinel, then re-evaluate
the guard.  Any other body error — including `EndOfIteration` raised
by `break` — is returned as the loop's own error (this branch has no
end-of-iteration handling).  The guard and body evaluators are the
child runtimes.  `none` means the available fuel was exhausted (the
loop was still running). -/
def loopGuarded (guard : Scope → Except Err Bool × Scope) (body : Runtime) :
    ℕ → Scope → Option StmRes
  | 0, _ => none
  | fuel + 1, vs =>
    match guard vs with
    | (.error e, vs1) => some (some e, vs1)
    | (.ok false, vs1) => some (none, vs1)
    | (.ok true, vs1) =>
      let r := body vs1
      match clearContinue r.1 with
      | some e => some (some e, r.2)
      | none => loopGuarded guard body fuel r.2

/--
The variable-binding step of an `in` loop iteration (part_003 lines
606-637): one variable receives the iteration value directly; a list
of variables requires a list value of the same length
(`InvalidState` otherwise). -/
def loopBindVars (vars : List String) (res : GoVal) (vs : Scope) : Except Err Scope :=
  if h : vars.length = 1 then
    .ok (vs.setValue (vars.head (by intro hh; simp [hh] at h)) res)
  else
    match res with
    | .list resList =>
      if vars.length ≠ resList.length then
        .error (.rt .invalidState
          ("Assigned number of variables is different to number of values (" ++
            toString vars.length ++ " variables vs " ++
            toString resList.length ++ " values)"))
      else
        .ok ((vars.zip resList).foldl (fun s p => s.setValue p.1 p.2) vs)
    | _ => .error (.rt .invalidState "Result for loop variable is not a list")

/-- `fmt.Sprint` of a potential map key, as used for the
`sortutil.InterfaceStrings` ordering.  The rendering is exact for Go
`nil`, booleans, strings, and integral numbers of magnitude below
10^6.  It is a stand-in elsewhere: Go prints integral floats of
magnitude 10^6 and above in scientific notation (`1e+06`) and
non-integral floats by their shortest decimal representation, neither
of which this rational-valued model reproduces — the theorems about
map-key ordering therefore restrict keys to `exactKeyRender` values.
Lists and maps get fixed placeholders: Go panics when an uncomparable
value is used as a map key, so such keys cannot occur at runtime. -/
def goValStr : GoVal → String
  | .null => "<nil>"
  | .boolean true => "true"
  | .boolean false => "false"
  | .num q => if q.den = 1 then toString q.num else toString q
  | .str s => s
  | .list _ => "<list>"
  | .vmap _ => "<map>"

/-- The keys on which `goValStr` coincides with Go's `fmt.Sprint`:
nil, booleans, strings, and integral numbers of magnitude below 10^6
(larger integral floats print in scientific notation; lists and maps
cannot be Go map keys). -/
def exactKeyRender : GoVal → Bool
  | .null => true
  | .boolean _ => true
  | .str _ => true
  | .num q => q.den = 1 && q.num.natAbs < 1000000
  | .list _ => false
  | .vmap _ => false

/-- The key order used by `sortutil.InterfaceStrings` (an external
collaborator of the repo): ascending by the keys' string renderings. -/
def keyLe (a b : GoVal) : Prop := goValStr a ≤ goValStr b

instance : DecidableRel keyLe := fun a b => by
  unfold keyLe; infer_instance

instance : IsTotal GoVal keyLe :=
  ⟨fun a b => le_total (goValStr a) (goValStr b)⟩

instance : IsTrans GoVal keyLe :=
  ⟨fun _ _ _ h1 h2 => le_trans h1 h2⟩

/-- Go map indexing `valMap[key]` (missing keys yield the nil
interface). -/
def lookupGo (entries : List (GoVal × GoVal)) (k : GoVal) : GoVal :=
  ((entries.find? (fun p => p.1 = k)).map (·.2)).getD .null

/--
The iteration sequence built by the value branch of
`loopRuntime.Eval` (part_003 lines 539-588): a list yields its
elements in order; a map yields `[key, value]` pairs with the keys
sorted by `sortutil.InterfaceStrings` (the entries of `vmap` stand for
Go's arbitrary map enumeration order); any other value yields itself
exactly once. -/
def loopIterVals : GoVal → List GoVal
  | .list l => l
  | .vmap entries =>
    (List.insertionSort keyLe (entries.map (·.1))).map
      (fun k => .list [k, lookupGo entries k])
  | v => [v]

/--
The iteration loop of the `in` branch of `loopRuntime.Eval` (part_003
lines 591-664), applied to the sequence of values the iterator
produces: bind the pattern variables, run the body, clear
`ContinueIteration` after each iteration, and clear the final
`EndOfIteration` — whether it came from the iterator's exhaustion or
from a `break` in the body.  Binding errors are returned directly. -/
def loopInVals (vars : List String) (body : Runtime) : List GoVal → Scope → StmRes
  | [], vs => (none, vs)
  | v :: rest, vs =>
    match loopBindVars vars v vs with
    | .error e => (some e, vs)
    | .ok vs1 =>
      let r := body vs1
      match clearContinue r.1 with
      | none => loopInVals vars body rest r.2
      | some (.rt .endOfIteration _) => (none, r.2)
      | some e => (some e, r.2)

/-- A `for <pat> in <expr> { … }` loop whose iterable expression
evaluated to the value `itVal`. -/
def loopInValue (vars : List String) (body : Runtime) (itVal : GoVal) (vs : Scope) : StmRes :=
  loopInVals vars body (loopIterVals itVal) vs

/-- The key component of an iteration pair `[k, v]` produced for a
map entry. -/
def pairKey : GoVal → GoVal
  | .list (k :: _) => k
  | v => v

-- ------------------------------------------------------------------
-- The range built-in (interpreter/func_provider.go lines 109-170)
-- ------------------------------------------------------------------

/-- The instance state `rangeFunc.Run` keeps between calls
(`from`/`to`/`step`/`currVal`). -/
structure RangeState where
  fromVal : ℚ
  toVal : ℚ
  stepVal : ℚ
  currVal : ℚ
deriving DecidableEq, Repr

/-- Outcome of one `rangeFunc.Run` call: a value together with the
`IsIterator` sentinel, the `EndOfIteration` sentinel, or a parameter
error. -/
inductive RangeOut where
  | iter (v : ℚ)
  | ended
  | failure (msg : String)
deriving DecidableEq, Repr

/-- The end-of-iteration test of `rangeFunc.Run`:
`(from < to && currVal > to) || (from > to && currVal < to) || from == to`. -/
def rangeEndCond (s : RangeState) : Bool :=
  (decide (s.fromVal < s.toVal) && decide (s.currVal > s.toVal)) ||
    (decide (s.fromVal > s.toVal) && decide (s.currVal < s.toVal)) ||
    decide (s.fromVal = s.toVal)

/--
`rangeFunc.Run`.  On the first call (no instance state) the
parameters are stored (`from` defaults to `0`, `step` to `1`) and
`from` is returned with the `IsIterator` sentinel.  On subsequent
calls the stored `currVal` is read, `currVal + step` is stored back,
and the old `currVal` is returned — with `EndOfIteration` if the end
condition holds for it, with `IsIterator` otherwise. -/
def rangeRun (st : Option RangeState) (args : List ℚ) : RangeOut × Option RangeState :=
  match st with
  | some s =>
    let s' := { s with currVal := s.currVal + s.stepVal }
    if rangeEndCond s then (.ended, some s') else (.iter s.currVal, some s')
  | none =>
    match args with
    | [] => (.failure "Need at least an end range as first parameter", none)
    | [t] => (.iter 0, some ⟨0, t, 1, 0⟩)
    | [f, t] => (.iter f, some ⟨f, t, 1, f⟩)
    | f :: t :: s2 :: _ => (.iter f, some ⟨f, t, s2, f⟩)

/-- The iterator consumption loop: repeated `rangeFunc.Run` calls,
accumulating each yielded value, until `EndOfIteration`. -/
def loopRangeAux (args : List ℚ) : Option RangeState → ℕ → List ℚ → Option (List ℚ)
  | _, 0, _ => none
  | st, fuel + 1, acc =>
    match rangeRun st args with
    | (.iter v, st') => loopRangeAux args st' fuel (acc ++ [v])
    | (.ended, _) => some acc
    | (.failure _, _) => none

/--
The sequence of values a `for i in range(args…) { … }` loop binds to
its variable, in order.  Modelled from the spec: the function-call
glue that converts the bare `IsIterator`/`EndOfIteration` sentinels of
`rangeFunc.Run` into loop-visible runtime errors (`rt_identifier.go`)
is not under src/; spec §4.D prescribes that a first call returning
`IsIterator` makes the loop call the same function repeatedly, using
each yielded value, until `EndOfIteration`.  The first call's value is
discarded by `loopRuntime.Eval` (it only detects the iterator).
`none` means the loop was still running when `fuel` iterator calls
were used up, or the range parameters were rejected. -/
def loopRangeVals (args : List ℚ) (fuel : ℕ) : Option (List ℚ) :=
  match rangeRun none args with
  | (.iter _, some st) => loopRangeAux args (some st) fuel []
  | _ => none

-- ------------------------------------------------------------------
-- The node-runtime registry (part_003 lines 760-880)
-- ------------------------------------------------------------------

/-- A runtime component as handed out by
`ECALRuntimeProvider.Runtime`: either the component built by the
registered constructor for the node's label, or the invalid
component. -/
inductive NodeRuntime where
  | inst (ctor : String) (label : String)
  | invalidInst (label : String)
deriving DecidableEq, Repr

/-- The `providerMap` table: AST node label to runtime constructor
(part_003 lines 760-854).  The label strings are the parser's node
names as they appear in the repo's AST dumps. -/
def providerMap : List (String × String) :=
  [("EOF", "invalidRuntimeInst"),
   ("string", "stringValueRuntimeInst"),
   ("number", "numberValueRuntimeInst"),
   ("identifier", "identifierRuntimeInst"),
   ("statements", "statementsRuntimeInst"),
   ("funccall", "voidRuntimeInst"),
   ("compaccess", "voidRuntimeInst"),
   ("list", "listValueRuntimeInst"),
   ("map", "mapValueRuntimeInst"),
   ("params", "voidRuntimeInst"),
   ("guard", "guardRuntimeInst"),
   (">=", "greaterequalOpRuntimeInst"),
   ("<=", "lessequalOpRuntimeInst"),
   ("!=", "notequalOpRuntimeInst"),
   ("==", "equalOpRuntimeInst"),
   (">", "greaterOpRuntimeInst"),
   ("<", "lessOpRuntimeInst"),
   ("kvp", "voidRuntimeInst"),
   ("preset", "voidRuntimeInst"),
   ("plus", "plusOpRuntimeInst"),
   ("minus", "minusOpRuntimeInst"),
   ("times", "timesOpRuntimeInst"),
   ("div", "divOpRuntimeInst"),
   ("modint", "modintOpRuntimeInst"),
   ("divint", "divintOpRuntimeInst"),
   (":=", "assignmentRuntimeInst"),
   ("func", "funcRuntimeInst"),
   ("return", "returnRuntimeInst"),
   ("or", "orOpRuntimeInst"),
   ("and", "andOpRuntimeInst"),
   ("not", "notOpRuntimeInst"),
   ("like", "likeOpRuntimeInst"),
   ("in", "inOpRuntimeInst"),
   ("hasprefix", "beginswithOpRuntimeInst"),
   ("hassuffix", "endswithOpRuntimeInst"),
   ("notin", "notinOpRuntimeInst"),
   ("false", "falseRuntimeInst"),
   ("true", "trueRuntimeInst"),
   ("null", "nullRuntimeInst"),
   ("if", "ifRuntimeInst"),
   ("loop", "loopRuntimeInst"),
   ("break", "breakRuntimeInst"),
   ("continue", "continueRuntimeInst")]

/-- `ECALRuntimeProvider.Runtime` (part_003 lines 873-880): look the
node's label up in `providerMap`; unknown labels get
`invalidRuntimeInst`. -/
def runtimeFor (label : String) : NodeRuntime :=
  match providerMap.find? (fun p => p.1 = label) with
  | some p => .inst p.2 label
  | none => .invalidInst label

/-- `invalidRuntime.Validate`.  The implementation of the invalid
runtime component is not under src/; its behaviour is pinned by the
repo's own test `TestGeneralErrorCases`
(interpreter/rt_general_test.go lines 19-33), which requires both
`Validate()` and `Eval()` to fail with
`Invalid construct (Unknown node: <label>)`. -/
def invalidRuntimeValidate (label : String) : Except Err Unit :=
  .error (.rt .invalidConstruct ("Unknown node: " ++ label))

/-- `invalidRuntime.Eval`; see `invalidRuntimeValidate`. -/
def invalidRuntimeEval (label : String) : Except Err Unit :=
  .error (.rt .invalidConstruct ("Unknown node: " ++ label))

-- ------------------------------------------------------------------
-- Debugger value extraction/injection (part_001 lines 518-583)
-- ------------------------------------------------------------------

/-- A thread's interrogation state.  Only the fields that
`ExtractValue`/`InjectValue` consult are modelled (`running` and the
thread's suspended scope `vs`); the condition variable, pending
command, step-out stack and last node are not used by them. -/
structure InterrogationState where
  running : Bool
  vs : Scope
deriving DecidableEq, Repr

/-- The `ecalDebugger` fields that value extraction/injection touch:
the per-thread interrogation states and the (nil-able) global
scope. -/
structure EcalDebugger where
  interrogationStates : List (ℕ × InterrogationState)
  globalScope : Option Scope
deriving DecidableEq, Repr

/-- `ed.interrogationStates[threadId]`. -/
def EcalDebugger.findIS (ed : EcalDebugger) (tid : ℕ) : Option InterrogationState :=
  (ed.interrogationStates.find? (fun p => p.1 = tid)).map (·.2)

/--
`ecalDebugger.ExtractValue` (part_001 lines 518-542): with no global
scope, fail; with no interrogation state for the thread, or with the
thread running, fail with `Cannot find suspended thread <tid>`;
otherwise read `varName` from the suspended scope and write it to
`destVarName` in the global scope (`No such value` if absent).  The
result pairs the returned error with the debugger afterwards. -/
def extractValue (ed : EcalDebugger) (tid : ℕ) (varName destVarName : String) :
    Option Err × EcalDebugger :=
  match ed.globalScope with
  | none => (some (.goErr "Cannot access global scope"), ed)
  | some g =>
    match ed.findIS tid with
    | none => (some (.goErr ("Cannot find suspended thread " ++ toString tid)), ed)
    | some is =>
      if is.running then
        (some (.goErr ("Cannot find suspended thread " ++ toString tid)), ed)
      else
        match is.vs.getValue varName with
        | some val =>
          (none, { ed with globalScope := some (g.setValue destVarName val) })
        | none => (some (.goErr ("No such value " ++ varName)), ed)

/--
`ecalDebugger.InjectValue` (part_001 lines 548-583): same suspension
checks as `extractValue`; for a suspended thread the expression is
parsed and evaluated in a scope inheriting from the global scope —
supplied here as the oracle `evalExpr` — and the result is written
into the suspended thread's scope. -/
def injectValue (ed : EcalDebugger) (tid : ℕ) (varName : String)
    (evalExpr : Scope → Except Err GoVal) : Option Err × EcalDebugger :=
  match ed.globalScope with
  | none => (some (.goErr "Cannot access global scope"), ed)
  | some g =>
    match ed.findIS tid with
    | none => (some (.goErr ("Cannot find suspended thread " ++ toString tid)), ed)
    | some is =>
      if is.running then
        (some (.goErr ("Cannot find suspended thread " ++ toString tid)), ed)
      else
        match evalExpr g with
        | .ok val =>
          let upd := ed.interrogationStates.map
            (fun p => if p.1 = tid then
              (p.1, { p.2 with vs := p.2.vs.setValue varName val }) else p)
          (none, { ed with interrogationStates := upd })
        | .error e => (some e, ed)

/-- Whether an error is a typed `InvalidState` runtime error
(`*util.RuntimeError` with `Type == util.ErrInvalidState`). -/
def Err.isInvalidState : Err → Bool
  | .rt .invalidState _ => true
  | _ => false

/-- A thread id does not identify a currently suspended thread: it
has no interrogation state, or its state is still marked running. -/
def notSuspended (ed : EcalDebugger) (tid : ℕ) : Prop :=
  ∀ s, ed.findIS tid = some s → s.running = true

-- ------------------------------------------------------------------
-- splitModuleAndName (stdlib/stdlib.go lines 54-65)
-- ------------------------------------------------------------------

/-- `strings.SplitN(s, ".", 2)` at the character level: split at the
first `'.'`, if any. -/
def splitFirstDot : List Char → Option (List Char × List Char)
  | [] => none
  | c :: rest =>
    if c = '.' then some ([], rest)
    else
      match splitFirstDot rest with
      | none => none
      | some (a, b) => some (c :: a, b)

/-- `splitModuleAndName`: `SplitN(fullname, ".", 2)`; the module is
the first part and the name is `strings.Join(parts[1:], "")` — at most
one further part, kept verbatim (any later dots remain in it). -/
def splitModuleAndName (fullname : String) : String × String :=
  match splitFirstDot fullname.toList with
  | none => (fullname, "")
  | some (a, b) => (⟨a⟩, ⟨b⟩)

-- ==================================================================
-- Helper lemmas
-- ==================================================================

instance {ε α : Type} [DecidableEq ε] [DecidableEq α] : DecidableEq (Except ε α) :=
  fun a b =>
    match a, b with
    | .ok x, .ok y =>
      if h : x = y then isTrue (by rw [h]) else
        isFalse (by intro hh; injection hh; contradiction)
    | .error x, .error y =>
      if h : x = y then isTrue (by rw [h]) else
        isFalse (by intro hh; injection hh; contradiction)
    | .ok _, .error _ => isFalse (by intro h; exact Except.noConfusion h)
    | .error _, .ok _ => isFalse (by intro h; exact Except.noConfusion h)

theorem getValue_setValue_same (vs : Scope) (n : String) (v : GoVal) :
    (vs.setValue n v).getValue n = some v := by
  induction vs with
  | nil => simp [Scope.setValue, Scope.getValue]
  | cons p rest ih =>
    obtain ⟨k, w⟩ := p
    by_cases hk : k = n
    · subst hk; simp [Scope.setValue, Scope.getValue]
    · simp only [Scope.setValue, if_neg hk]
      simp [Scope.getValue, hk] at ih ⊢
      exact ih

theorem getValue_setValue_other (vs : Scope) (n m : String) (v : GoVal)
    (h : m ≠ n) : (vs.setValue n v).getValue m = vs.getValue m := by
  induction vs with
  | nil => simp [Scope.setValue, Scope.getValue, Ne.symm h]
  | cons p rest ih =>
    obtain ⟨k, w⟩ := p
    by_cases hk : k = n
    · subst hk
      have hkm : ¬ k = m := fun hh => h hh.symm
      simp [Scope.setValue, Scope.getValue, hkm]
    · by_cases hm : k = m
      · subst hm
        simp [Scope.setValue, Scope.getValue, hk]
      · simp only [Scope.setValue, if_neg hk]
        simp [Scope.getValue, hm] at ih ⊢
        exact ih

theorem getValue_foldl_setValue_not_mem (ps : List (String × GoVal)) (vs : Scope)
    (n : String) (h : n ∉ ps.map Prod.fst) :
    (ps.foldl (fun s p => s.setValue p.1 p.2) vs).getValue n = vs.getValue n := by
  induction ps generalizing vs with
  | nil => rfl
  | cons p rest ih =>
    simp only [List.map_cons, List.mem_cons, not_or] at h
    simp only [List.foldl_cons]
    rw [ih _ h.2, getValue_setValue_other _ _ _ _ (fun hh => h.1 hh)]

theorem getValue_foldl_setValue_zip (names : List String) (vals : List GoVal)
    (vs : Scope) (hnd : names.Nodup) (hlen : names.length = vals.length) :
    ∀ i (h1 : i < names.length) (h2 : i < vals.length),
      (((names.zip vals).foldl (fun s p => s.setValue p.1 p.2) vs)).getValue
          (names.get ⟨i, h1⟩) = some (vals.get ⟨i, h2⟩) := by
  induction names generalizing vals vs with
  | nil => intro i h1; exact absurd h1 (by simp)
  | cons hd tl ih =>
    cases vals with
    | nil => simp at hlen
    | cons vhd vtl =>
      intro i h1 h2
      match i with
      | 0 =>
        simp only [List.zip_cons_cons, List.foldl_cons, List.get]
        rw [getValue_foldl_setValue_not_mem]
        · exact getValue_setValue_same vs hd vhd
        · intro hmem
          rcases List.mem_map.1 hmem with ⟨p, hp, hfst⟩
          exact (List.nodup_cons.1 hnd).1
            (by
              have := List.of_mem_zip hp
              rw [← hfst]; exact this.1)
      | i + 1 =>
        simp only [List.zip_cons_cons, List.foldl_cons, List.get]
        exact ih vtl _ (List.nodup_cons.1 hnd).2 (by simpa using hlen) i _ _

theorem splitFirstDot_of_not_mem :
    ∀ (a : List Char), '.' ∉ a → splitFirstDot a = none := by
  intro a
  induction a with
  | nil => intro _; rfl
  | cons c rest ih =>
    intro h
    simp only [List.mem_cons, not_or] at h
    have hc : ¬ c = '.' := fun hh => h.1 hh.symm
    simp [splitFirstDot, hc, ih h.2]

theorem splitFirstDot_append (a b : List Char) (h : '.' ∉ a) :
    splitFirstDot (a ++ '.' :: b) = some (a, b) := by
  induction a with
  | nil => simp [splitFirstDot]
  | cons c rest ih =>
    simp only [List.mem_cons, not_or] at h
    have hc : ¬ c = '.' := fun hh => h.1 hh.symm
    simp [splitFirstDot, hc, ih h.2]

/-- Setting up a 3-argument `range` call stores
`from = a, to = b, step = s, currVal = a` and the loop then consumes
the iterator. -/
theorem loopRangeVals_eq_aux (a b s : ℚ) (fuel : ℕ) :
    loopRangeVals [a, b, s] fuel = loopRangeAux [a, b, s] (some ⟨a, b, s, a⟩) fuel [] :=
  rfl

/-- If the range end condition first holds at call index `n`, the
iterator consumption starting at call index `k ≤ n` appends exactly
the values `a + (k+j)·s` for `j < n-k` and terminates. -/
theorem loopRangeAux_terminates (a b s : ℚ) (n : ℕ)
    (hend : rangeEndCond ⟨a, b, s, a + n * s⟩ = true)
    (hmid : ∀ j : ℕ, j < n → rangeEndCond ⟨a, b, s, a + j * s⟩ = false) :
    ∀ (fuel k : ℕ) (acc : List ℚ), k ≤ n → n - k < fuel →
      loopRangeAux [a, b, s] (some ⟨a, b, s, a + k * s⟩) fuel acc =
        some (acc ++ (List.range (n - k)).map
          (fun j : ℕ => a + (((k + j : ℕ)) : ℚ) * s)) := by
  intro fuel
  induction fuel with
  | zero => intro k acc _ hf; omega
  | succ f ih =>
    intro k acc hk hf
    by_cases hkn : k = n
    · subst hkn
      simp only [loopRangeAux, rangeRun, hend, if_true]
      simp
    · have hklt : k < n := lt_of_le_of_ne hk hkn
      have hstep : a + k * s + s = a + (k + 1 : ℕ) * s := by push_cast; ring
      simp only [loopRangeAux, rangeRun, hmid k hklt, if_false, Bool.false_eq_true]
      have h2 := ih (k + 1) (acc ++ [a + k * s]) hklt (by omega)
      rw [← hstep] at h2
      rw [h2]
      congr 1
      rw [List.append_assoc]
      congr 1
      have hnk : n - k = (n - (k + 1)) + 1 := by omega
      rw [hnk, List.range_succ_eq_map, List.map_cons, List.map_map]
      simp only [List.singleton_append, Nat.add_zero]
      congr 1
      apply List.map_congr_left
      intro j _
      simp only [Function.comp_apply, Nat.succ_eq_add_one]
      push_cast
      ring

/-- If the range end condition never holds, the loop never
terminates, whatever the fuel. -/
theorem loopRangeAux_diverges (a b s : ℚ)
    (h : ∀ j : ℕ, rangeEndCond ⟨a, b, s, a + j * s⟩ = false) :
    ∀ (fuel k : ℕ) (acc : List ℚ),
      loopRangeAux [a, b, s] (some ⟨a, b, s, a + k * s⟩) fuel acc = none := by
  intro fuel
  induction fuel with
  | zero => intro k acc; rfl
  | succ f ih =>
    intro k acc
    have hstep : a + k * s + s = a + (k + 1 : ℕ) * s := by push_cast; ring
    simp only [loopRangeAux, rangeRun, h k, if_false, Bool.false_eq_true]
    have h2 := ih (k + 1) (acc ++ [a + k * s])
    rw [← hstep] at h2
    exact h2

/-- For `from < to` the end condition reduces to `currVal > to`. -/
theorem rangeEndCond_of_lt {a b : ℚ} (s v : ℚ) (h : a < b) :
    rangeEndCond ⟨a, b, s, v⟩ = decide (v > b) := by
  simp [rangeEndCond, h, ne_of_lt h, not_lt_of_lt h, asymm h]

/-- For `from > to` the end condition reduces to `currVal < to`. -/
theorem rangeEndCond_of_gt {a b : ℚ} (s v : ℚ) (h : b < a) :
    rangeEndCond ⟨a, b, s, v⟩ = decide (v < b) := by
  simp [rangeEndCond, h, (ne_of_lt h).symm, not_lt_of_lt h, asymm h]

-- ==================================================================
-- Claim theorems
-- ==================================================================

/--
C1, counterexample.  The claim's truthiness rule fails on the code: in
`guardRuntime.Eval` the comparison `ret != 0` boxes the untyped
constant `0` as an `int`, which never equals a `float64` number, so a
guard on the number `0` — and likewise on the empty string, an empty
list and an empty map — evaluates to `true`, where the claimed rule
(`specTruthy`) requires `false`.
-/
theorem guard_truthiness_counterexample :
    guardEval (.ok (.num 0)) = .ok true ∧ specTruthy (.num 0) = false ∧
    guardEval (.ok (.str "")) = .ok true ∧ specTruthy (.str "") = false ∧
    guardEval (.ok (.list [])) = .ok true ∧ specTruthy (.list []) = false ∧
    guardEval (.ok (.vmap [])) = .ok true ∧ specTruthy (.vmap []) = false := by
  decide

/--
C1, amended.  For every guard expression of an if or for statement,
the guard result is the boolean coercion of the evaluated condition
value under the rule that truthiness is true except for `Null` and
`Bool(false)`; in particular a guard on the number 0, the empty
string, an empty list or an empty map evaluates to `true` (the
guard's `!= 0` comparison can never match a `float64` number value).
Errors of the condition propagate unchanged.
-/
theorem guard_truthiness (v : GoVal) (e : Err) :
    guardEval (.ok v) = .ok (nullFalseTruthy v) ∧
    guardEval (.error e) = .error e := by
  refine ⟨?_, rfl⟩
  cases v with
  | boolean b => cases b <;> rfl
  | null => rfl
  | num q => rfl
  | str s => rfl
  | list l => rfl
  | vmap m => rfl

/-- Packaging of the two range lemmas: the whole loop value sequence
for a three-argument `range` call whose end condition first holds at
call index `n`. -/
theorem loopRangeVals_of_spec (a b s : ℚ) (n : ℕ)
    (hend : rangeEndCond ⟨a, b, s, a + n * s⟩ = true)
    (hmid : ∀ j : ℕ, j < n → rangeEndCond ⟨a, b, s, a + j * s⟩ = false)
    (fuel : ℕ) (hf : n + 1 ≤ fuel) :
    loopRangeVals [a, b, s] fuel =
      some ((List.range n).map (fun j : ℕ => a + (j : ℚ) * s)) := by
  have h0 : (⟨a, b, s, a⟩ : RangeState) = ⟨a, b, s, a + (0 : ℕ) * s⟩ := by
    norm_num
  rw [loopRangeVals_eq_aux, h0]
  rw [loopRangeAux_terminates a b s n hend hmid fuel 0 [] (Nat.zero_le n) (by omega)]
  simp

/-- Divergence packaging: if the end condition never holds the loop
runs out of any amount of fuel. -/
theorem loopRangeVals_none_of_spec (a b s : ℚ)
    (h : ∀ j : ℕ, rangeEndCond ⟨a, b, s, a + j * s⟩ = false) (fuel : ℕ) :
    loopRangeVals [a, b, s] fuel = none := by
  have h0 : (⟨a, b, s, a⟩ : RangeState) = ⟨a, b, s, a + (0 : ℕ) * s⟩ := by
    norm_num
  rw [loopRangeVals_eq_aux, h0]
  exact loopRangeAux_diverges a b s h fuel 0 []

/-- For `range(2,10,1)` the end condition first holds at call index 9. -/
theorem range_2_10_1_end : rangeEndCond ⟨2, 10, 1, 2 + (9 : ℕ) * 1⟩ = true := by
  rw [rangeEndCond_of_lt _ _ (by norm_num : (2:ℚ) < 10)]
  norm_num

/-- For `range(2,10,1)` the end condition fails at call indices below 9. -/
theorem range_2_10_1_mid :
    ∀ j : ℕ, j < 9 → rangeEndCond ⟨2, 10, 1, 2 + j * 1⟩ = false := by
  intro j hj
  rw [rangeEndCond_of_lt _ _ (by norm_num : (2:ℚ) < 10)]
  simp only [decide_eq_false_iff_not, not_lt]
  have hj8 : (j : ℚ) ≤ 8 := by exact_mod_cast Nat.lt_succ_iff.mp hj
  linarith

/--
C3.  Iterating `range(2,10,1)` in a for-in loop binds exactly the
sequence 2,3,4,5,6,7,8,9,10 to the loop variable (the end value 10
included), and iterating `range(10,3,-3)` binds exactly 10,7,4.
-/
theorem range_concrete_sequences :
    loopRangeVals [2, 10, 1] 30 = some [2, 3, 4, 5, 6, 7, 8, 9, 10] ∧
    loopRangeVals [10, 3, -3] 30 = some [10, 7, 4] := by
  constructor
  · rw [loopRangeVals_of_spec 2 10 1 9 range_2_10_1_end range_2_10_1_mid 30
      (by norm_num)]
    norm_num [List.range_succ]
  · have hend : rangeEndCond ⟨10, 3, -3, 10 + (3 : ℕ) * (-3)⟩ = true := by
      rw [rangeEndCond_of_gt _ _ (by norm_num : (3:ℚ) < 10)]
      norm_num
    have hmid : ∀ j : ℕ, j < 3 → rangeEndCond ⟨10, 3, -3, 10 + j * (-3)⟩ = false := by
      intro j hj
      rw [rangeEndCond_of_gt _ _ (by norm_num : (3:ℚ) < 10)]
      simp only [decide_eq_false_iff_not, not_lt]
      have hj2 : (j : ℚ) ≤ 2 := by exact_mod_cast Nat.lt_succ_iff.mp hj
      linarith
    rw [loopRangeVals_of_spec 10 3 (-3) 3 hend hmid 30 (by norm_num)]
    norm_num [List.range_succ]

/--
C2, counterexample.  For a = 2, b = 10, s = 1 the loop
`for i in range(2,10,1)` executes 9 iterations (the end value is
inclusive), while the claimed formula `max(0, ceil((b-a)/s))` yields
8.
-/
theorem range_iteration_count_formula_counterexample :
    (loopRangeVals [2, 10, 1] 30).map List.length = some 9 ∧
    max 0 ⌈((10 - 2 : ℚ) / 1)⌉ = 8 ∧ (9 : ℤ) ≠ 8 := by
  refine ⟨?_, by norm_num, by decide⟩
  rw [loopRangeVals_of_spec 2 10 1 9 range_2_10_1_end range_2_10_1_mid 30
    (by norm_num)]
  simp

/--
C2, amended.  For numbers a, b and step s, the loop
`for i in range(a,b,s)` behaves as follows (the end is inclusive, not
exclusive): for a = b it executes 0 iterations; for a < b with s > 0
(and symmetrically a > b with s < 0) it executes exactly
`floor((b-a)/s) + 1` iterations, binding a + j·s for
j = 0 … floor((b-a)/s); and when the step points away from the end —
a < b with s ≤ 0, or a > b with s ≥ 0 (including every s = 0 case
with a ≠ b) — the loop never terminates, rather than executing zero
iterations.
-/
theorem range_loop_iteration_count (a b s : ℚ) :
    (a = b → ∀ fuel : ℕ, 1 ≤ fuel → loopRangeVals [a, b, s] fuel = some []) ∧
    (a < b → 0 < s → ∀ fuel : ℕ, (⌊(b - a) / s⌋.toNat + 1) + 1 ≤ fuel →
      loopRangeVals [a, b, s] fuel =
        some ((List.range (⌊(b - a) / s⌋.toNat + 1)).map
          (fun j : ℕ => a + (j : ℚ) * s))) ∧
    (b < a → s < 0 → ∀ fuel : ℕ, (⌊(b - a) / s⌋.toNat + 1) + 1 ≤ fuel →
      loopRangeVals [a, b, s] fuel =
        some ((List.range (⌊(b - a) / s⌋.toNat + 1)).map
          (fun j : ℕ => a + (j : ℚ) * s))) ∧
    (a < b → s ≤ 0 → ∀ fuel : ℕ, loopRangeVals [a, b, s] fuel = none) ∧
    (b < a → 0 ≤ s → ∀ fuel : ℕ, loopRangeVals [a, b, s] fuel = none) := by
  refine ⟨?_, ?_, ?_, ?_, ?_⟩
  · -- a = b: the end condition holds immediately.
    intro hab fuel hfuel
    have h := loopRangeVals_of_spec a b s 0
      (by simp [rangeEndCond, hab]) (by omega) fuel (by omega)
    simpa using h
  · -- a < b, 0 < s: terminates after floor((b-a)/s) + 1 iterations.
    intro hab hs fuel hfuel
    have hxpos : 0 < (b - a) / s := div_pos (by linarith) hs
    have hfl : (⌊(b - a) / s⌋.toNat : ℤ) = ⌊(b - a) / s⌋ :=
      Int.toNat_of_nonneg (Int.floor_nonneg.2 (le_of_lt hxpos))
    have hflq : ((⌊(b - a) / s⌋.toNat : ℕ) : ℚ) = ((⌊(b - a) / s⌋ : ℤ) : ℚ) := by
      exact_mod_cast congrArg (fun z : ℤ => (z : ℚ)) hfl
    apply loopRangeVals_of_spec
    · rw [rangeEndCond_of_lt _ _ hab]
      have h1 : (b - a) / s < ((⌊(b - a) / s⌋.toNat + 1 : ℕ) : ℚ) := by
        push_cast
        rw [hflq]
        exact Int.lt_floor_add_one ((b - a) / s)
      have h2 : b - a < ((⌊(b - a) / s⌋.toNat + 1 : ℕ) : ℚ) * s :=
        (div_lt_iff hs).1 h1
      simp only [decide_eq_true_eq]
      linarith
    · intro j hj
      rw [rangeEndCond_of_lt _ _ hab]
      simp only [decide_eq_false_iff_not, not_lt]
      have hj' : (j : ℤ) ≤ ⌊(b - a) / s⌋ := by
        rw [← hfl]; exact_mod_cast Nat.lt_succ_iff.mp hj
      have hjx : (j : ℚ) ≤ (b - a) / s :=
        le_trans (by exact_mod_cast hj') (Int.floor_le ((b - a) / s))
      have hmul : (j : ℚ) * s ≤ b - a := (le_div_iff hs).1 hjx
      linarith
    · omega
  · -- b < a, s < 0: terminates after floor((b-a)/s) + 1 iterations.
    intro hab hs fuel hfuel
    have hxpos : 0 < (b - a) / s := div_pos_of_neg_of_neg (by linarith) hs
    have hfl : (⌊(b - a) / s⌋.toNat : ℤ) = ⌊(b - a) / s⌋ :=
      Int.toNat_of_nonneg (Int.floor_nonneg.2 (le_of_lt hxpos))
    have hflq : ((⌊(b - a) / s⌋.toNat : ℕ) : ℚ) = ((⌊(b - a) / s⌋ : ℤ) : ℚ) := by
      exact_mod_cast congrArg (fun z : ℤ => (z : ℚ)) hfl
    apply loopRangeVals_of_spec
    · rw [rangeEndCond_of_gt _ _ hab]
      have h1 : (b - a) / s < ((⌊(b - a) / s⌋.toNat + 1 : ℕ) : ℚ) := by
        push_cast
        rw [hflq]
        exact Int.lt_floor_add_one ((b - a) / s)
      have h2 : ((⌊(b - a) / s⌋.toNat + 1 : ℕ) : ℚ) * s < b - a :=
        (div_lt_iff_of_neg hs).1 h1
      simp only [decide_eq_true_eq]
      linarith
    · intro j hj
      rw [rangeEndCond_of_gt _ _ hab]
      simp only [decide_eq_false_iff_not, not_lt]
      have hj' : (j : ℤ) ≤ ⌊(b - a) / s⌋ := by
        rw [← hfl]; exact_mod_cast Nat.lt_succ_iff.mp hj
      have hjx : (j : ℚ) ≤ (b - a) / s :=
        le_trans (by exact_mod_cast hj') (Int.floor_le ((b - a) / s))
      have hmul : b - a ≤ (j : ℚ) * s := (le_div_iff_of_neg hs).1 hjx
      linarith
    · omega
  · -- a < b, s ≤ 0: the end condition never holds.
    intro hab hs fuel
    apply loopRangeVals_none_of_spec
    intro j
    rw [rangeEndCond_of_lt _ _ hab]
    simp only [decide_eq_false_iff_not, not_lt]
    have : (j : ℚ) * s ≤ 0 :=
      mul_nonpos_iff.2 (Or.inl ⟨Nat.cast_nonneg j, hs⟩)
    linarith
  · -- b < a, 0 ≤ s: the end condition never holds.
    intro hab hs fuel
    apply loopRangeVals_none_of_spec
    intro j
    rw [rangeEndCond_of_gt _ _ hab]
    simp only [decide_eq_false_iff_not, not_lt]
    have : 0 ≤ (j : ℚ) * s := mul_nonneg (Nat.cast_nonneg j) hs
    linarith

/-- C2, witness for the amended theorem: `range(2,10,1)` executes
exactly ⌊(10-2)/1⌋ + 1 = 9 iterations, yielding 2 … 10. -/
theorem range_loop_iteration_count_witness :
    loopRangeVals [2, 10, 1] 11 = some [2, 3, 4, 5, 6, 7, 8, 9, 10] := by
  have ht : ⌊((10 - 2 : ℚ) / 1)⌋.toNat = 8 := by
    norm_num
    decide
  have h := (range_loop_iteration_count 2 10 1).2.1 (by norm_num) (by norm_num)
    11 (by rw [ht]; norm_num)
  rw [h, ht]
  norm_num [List.range_succ]

/-- For entries with pairwise distinct keys, the Go map lookup of a
present key returns its entry's value. -/
theorem lookupGo_of_mem (entries : List (GoVal × GoVal)) (k : GoVal) (v : GoVal)
    (hnd : (entries.map Prod.fst).Nodup) (hmem : (k, v) ∈ entries) :
    lookupGo entries k = v := by
  induction entries with
  | nil => cases hmem
  | cons p rest ih =>
    rcases List.mem_cons.1 hmem with h | h
    · subst h
      simp [lookupGo]
    · have hk : ¬ p.1 = k := by
        intro hpk
        have : k ∈ rest.map Prod.fst := by
          exact List.mem_map.2 ⟨(k, v), h, rfl⟩
        rw [← hpk] at this
        exact (List.nodup_cons.1 hnd).1 this
      have ih' := ih (List.nodup_cons.1 hnd).2 h
      simp only [lookupGo, List.find?] at ih' ⊢
      simp [hk]
      simpa [lookupGo] using ih'

/-- Go map lookup of an absent key returns the nil interface. -/
theorem lookupGo_not_mem (entries : List (GoVal × GoVal)) (k : GoVal)
    (h : k ∉ entries.map Prod.fst) : lookupGo entries k = .null := by
  induction entries with
  | nil => rfl
  | cons p rest ih =>
    simp only [List.map_cons, List.mem_cons, not_or] at h
    have hk : ¬ p.1 = k := fun hh => h.1 hh.symm
    simp only [lookupGo, List.find?] at ih ⊢
    simp [hk]
    simpa [lookupGo] using ih h.2

/-- Two lists of values that are permutations of each other, both
sorted by key rendering, with pairwise distinct renderings, are
equal. -/
theorem sorted_perm_eq : ∀ (l1 l2 : List GoVal), l1.Perm l2 →
    List.Sorted keyLe l1 → List.Sorted keyLe l2 →
    (l1.map goValStr).Nodup → l1 = l2 := by
  intro l1
  induction l1 with
  | nil => intro l2 hp _ _ _; exact hp.nil_eq
  | cons a t ih =>
    intro l2 hp hs1 hs2 hnd
    cases l2 with
    | nil => exact absurd hp.symm.nil_eq (by simp)
    | cons b t2 =>
      have hbmem : b ∈ a :: t := hp.mem_iff.2 (List.mem_cons_self b t2)
      have hamem : a ∈ b :: t2 := hp.mem_iff.1 (List.mem_cons_self a t)
      have hab : goValStr a = goValStr b := by
        have h1 : keyLe a b := by
          rcases List.mem_cons.1 hbmem with h | h
          · rw [h]; exact le_refl _
          · exact (List.sorted_cons.1 hs1).1 b h
        have h2 : keyLe b a := by
          rcases List.mem_cons.1 hamem with h | h
          · rw [h]; exact le_refl _
          · exact (List.sorted_cons.1 hs2).1 a h
        exact le_antisymm h1 h2
      have hba : a = b := by
        rcases List.mem_cons.1 hbmem with h | h
        · exact h.symm
        · exfalso
          have hmem : goValStr b ∈ t.map goValStr := List.mem_map_of_mem _ h
          rw [← hab] at hmem
          exact (List.nodup_cons.1 hnd).1 hmem
      subst hba
      have hpt : t.Perm t2 := (List.perm_cons a).1 hp
      rw [ih t2 hpt (List.sorted_cons.1 hs1).2 (List.sorted_cons.1 hs2).2
        (List.nodup_cons.1 hnd).2]

/--
The key sequence of a map iteration is exactly the sorted key list:
each produced pair `[k, v]` projects back to its key. -/
theorem loopIterVals_map_pairKey (entries : List (GoVal × GoVal)) :
    (loopIterVals (.vmap entries)).map pairKey =
      List.insertionSort keyLe (entries.map Prod.fst) := by
  simp only [loopIterVals, List.map_map]
  have hcomp : (pairKey ∘ fun k => GoVal.list [k, lookupGo entries k]) =
      (id : GoVal → GoVal) := funext fun k => rfl
  rw [hcomp, List.map_id]

/--
C4, counterexample.  The claim's parenthetical — iterating the same
map twice yields identical key sequences — fails: a Go map may hold
both the number `1` and the string `"1"` as keys (`mapValueRuntime`
stores evaluated keys raw), and `fmt.Sprint` renders both as `"1"`.
The key order of one and the same map then depends on the enumeration
order Go's randomized map range happens to produce before the sort:
the two enumeration orders of this two-entry map yield different key
sequences.
-/
theorem map_iteration_determinism_counterexample :
    [((GoVal.num 1), (GoVal.num 10)), (.str "1", .num 20)].Perm
      [(.str "1", .num 20), (.num 1, .num 10)] ∧
    goValStr (.num 1) = goValStr (.str "1") ∧
    (loopIterVals (.vmap [(.num 1, .num 10), (.str "1", .num 20)])).map pairKey ≠
      (loopIterVals (.vmap [(.str "1", .num 20), (.num 1, .num 10)])).map pairKey := by
  have htos : toString (1 : ℤ) = "1" := rfl
  refine ⟨List.Perm.swap _ _ _, by simp [goValStr, htos], ?_⟩
  rw [loopIterVals_map_pairKey, loopIterVals_map_pairKey]
  simp [List.insertionSort, List.orderedInsert, keyLe, goValStr, htos]

/--
C4, amended.  For every for-in loop: iterating a list yields its
elements in their list order; iterating a map yields one
`[key, value]` pair per entry (a permutation of the entries), with
the key sequence of the output in ascending order of the keys'
string renderings — stated for maps whose keys are null, booleans,
strings or integral numbers of magnitude below 10^6, where the
embedded rendering coincides with Go's `fmt.Sprint` (larger integral
floats print in scientific notation and non-integral float rendering
is not representable over rationals; lists and maps cannot be Go map
keys).  Iterating the same map twice yields identical key sequences
only when the key renderings are pairwise distinct; with a rendering
tie (such as keys `1` and `"1"`) the sequence depends on Go's
enumeration order.  Iterating any other scalar value yields that
value exactly once.
-/
theorem loop_iteration_order (l : List GoVal) (entries : List (GoVal × GoVal))
    (v : GoVal) (hnd : (entries.map Prod.fst).Nodup)
    (_hexact : ∀ k ∈ entries.map Prod.fst, exactKeyRender k = true)
    (hv1 : ∀ xs, v ≠ .list xs) (hv2 : ∀ es, v ≠ .vmap es) :
    loopIterVals (.list l) = l ∧
    (loopIterVals (.vmap entries)).Perm
      (entries.map (fun p => GoVal.list [p.1, p.2])) ∧
    List.Sorted keyLe ((loopIterVals (.vmap entries)).map pairKey) ∧
    (∀ entries2 : List (GoVal × GoVal), entries2.Perm entries →
      ((entries.map Prod.fst).map goValStr).Nodup →
      loopIterVals (.vmap entries2) = loopIterVals (.vmap entries)) ∧
    loopIterVals v = [v] := by
  have hmapf : (entries.map Prod.fst).map
      (fun k => GoVal.list [k, lookupGo entries k]) =
      entries.map (fun p => GoVal.list [p.1, p.2]) := by
    rw [List.map_map]
    apply List.map_congr_left
    intro p hp
    simp only [Function.comp_apply]
    rw [lookupGo_of_mem entries p.1 p.2 hnd (by simpa using hp)]
  refine ⟨rfl, ?_, ?_, ?_, ?_⟩
  · -- permutation with the entries
    have h1 : (loopIterVals (.vmap entries)).Perm
        ((entries.map Prod.fst).map (fun k => GoVal.list [k, lookupGo entries k])) :=
      (List.perm_insertionSort keyLe (entries.map Prod.fst)).map _
    rw [hmapf] at h1
    exact h1
  · -- sortedness of the key sequence
    rw [loopIterVals_map_pairKey]
    exact List.sorted_insertionSort keyLe _
  · -- independence of the enumeration order
    intro entries2 hperm hrnd
    have hndk : (entries.map Prod.fst).Nodup := hnd
    have hndk2 : (entries2.map Prod.fst).Nodup := by
      refine (List.Perm.nodup_iff ?_).2 hndk
      exact hperm.map Prod.fst
    have hsorteq : List.insertionSort keyLe (entries2.map Prod.fst) =
        List.insertionSort keyLe (entries.map Prod.fst) := by
      apply sorted_perm_eq
      · exact ((List.perm_insertionSort _ _).trans (hperm.map _)).trans
          (List.perm_insertionSort _ _).symm
      · exact List.sorted_insertionSort keyLe _
      · exact List.sorted_insertionSort keyLe _
      · refine (List.Perm.nodup_iff ?_).2 hrnd
        exact List.Perm.map goValStr
          ((List.perm_insertionSort _ _).trans (hperm.map _))
    simp only [loopIterVals]
    rw [hsorteq]
    apply List.map_congr_left
    intro k hk
    have hkmem : k ∈ entries.map Prod.fst := by
      have := (List.mem_insertionSort keyLe).1 hk
      exact this
    rcases List.mem_map.1 hkmem with ⟨p, hp, hpk⟩
    have hlk : lookupGo entries k = p.2 := by
      rw [← hpk]
      exact lookupGo_of_mem entries p.1 p.2 hnd (by simpa using hp)
    have hlk2 : lookupGo entries2 k = p.2 := by
      rw [← hpk]
      exact lookupGo_of_mem entries2 p.1 p.2 hndk2
        (hperm.mem_iff.2 hp)
    rw [hlk, hlk2]
  · -- scalar values iterate exactly once
    cases v with
    | list xs => exact absurd rfl (hv1 xs)
    | vmap es => exact absurd rfl (hv2 es)
    | null => rfl
    | boolean b => rfl
    | num q => rfl
    | str s => rfl

/-- C4, witness: the repo's test map `{"c":0, "a":2}` in a permuted
enumeration order yields the same pair sequence, which is a
permutation of the entries; a number iterates exactly once. -/
theorem loop_iteration_order_witness :
    (loopIterVals (.vmap [(.str "c", .num 0), (.str "a", .num 2)])).Perm
      [.list [.str "c", .num 0], .list [.str "a", .num 2]] ∧
    loopIterVals (.vmap [(.str "a", .num 2), (.str "c", .num 0)]) =
      loopIterVals (.vmap [(.str "c", .num 0), (.str "a", .num 2)]) ∧
    loopIterVals (.num 7) = [.num 7] := by
  have h := loop_iteration_order [] [(.str "c", .num 0), (.str "a", .num 2)]
    (.num 7) (by simp) (by decide) (fun xs => by simp) (fun es => by simp)
  refine ⟨h.2.1, ?_, h.2.2.2.2⟩
  exact h.2.2.2.1 [(.str "a", .num 2), (.str "c", .num 0)]
    (List.Perm.swap _ _ _) (by simp [goValStr])

/--
C5, counterexample.  A one-name destructuring pattern takes the same
`len(leftSide) == 1` branch as a simple assignment: `[a] := [42]`
binds `a` to the whole list `[42]` rather than to its element `42`,
and the length-mismatched `[a] := [1,2]` raises no `InvalidState`
error at all (it binds `a` to `[1,2]`).
-/
theorem destructuring_single_name_counterexample :
    assignEval ["a"] (.ok (.list [.num 42])) [] =
      (none, none, [("a", GoVal.list [.num 42])]) ∧
    GoVal.list [.num 42] ≠ GoVal.num 42 ∧
    assignEval ["a"] (.ok (.list [.num 1, .num 2])) [] =
      (none, none, [("a", GoVal.list [.num 1, .num 2])]) := by
  refine ⟨rfl, by simp, rfl⟩

/--
C5, amended.  For destructuring assignments with at least two target
names the claim holds: `[a1,…,an] := rhs` with `rhs` a list of the
same length `n ≥ 2` binds each `ai` to the i-th element; a length
mismatch, or a non-list right side, raises `InvalidState` — and
likewise for a for-in destructuring pattern of at least two names.
For a single-name list pattern the code takes the simple-assignment
branch instead: the name is bound to the entire right-side value and
no length check occurs.
-/
theorem destructuring_assignment (names : List String) (vals : List GoVal)
    (v : GoVal) (vs : Scope) (hn : 2 ≤ names.length) (hd : names.Nodup) :
    (names.length = vals.length →
      (assignEval names (.ok (.list vals)) vs).2.1 = none ∧
      ∀ i (h1 : i < names.length) (h2 : i < vals.length),
        ((assignEval names (.ok (.list vals)) vs).2.2).getValue
            (names.get ⟨i, h1⟩) = some (vals.get ⟨i, h2⟩)) ∧
    (names.length ≠ vals.length →
      (assignEval names (.ok (.list vals)) vs).2.1 = some (.rt .invalidState
        ("Assigned number of variables is different to number of values (" ++
          toString names.length ++ " variables vs " ++
          toString vals.length ++ " values)"))) ∧
    ((∀ xs, v ≠ .list xs) →
      (assignEval names (.ok v) vs).2.1 =
        some (.rt .invalidState "Result is not a list")) ∧
    (names.length ≠ vals.length →
      loopBindVars names (.list vals) vs = .error (.rt .invalidState
        ("Assigned number of variables is different to number of values (" ++
          toString names.length ++ " variables vs " ++
          toString vals.length ++ " values)"))) ∧
    ((∀ xs, v ≠ .list xs) →
      loopBindVars names v vs =
        .error (.rt .invalidState "Result for loop variable is not a list")) := by
  have hne1 : ¬ names.length = 1 := by omega
  refine ⟨?_, ?_, ?_, ?_, ?_⟩
  · intro hlen
    constructor
    · simp only [assignEval]
      rw [dif_neg hne1]
      rw [if_neg (fun hc => hc hlen)]
    · intro i h1 h2
      simp only [assignEval]
      rw [dif_neg hne1]
      rw [if_neg (fun hc => hc hlen)]
      exact getValue_foldl_setValue_zip names vals vs hd hlen i h1 h2
  · intro hlen
    simp only [assignEval]
    rw [dif_neg hne1]
    rw [if_pos hlen]
  · intro hv
    simp only [assignEval]
    rw [dif_neg hne1]
  · intro hlen
    unfold loopBindVars
    rw [dif_neg hne1]
    dsimp only
    rw [if_pos hlen]
  · intro hv
    unfold loopBindVars
    rw [dif_neg hne1]
    cases v with
    | list xs => exact absurd rfl (hv xs)
    | null => rfl
    | boolean b => rfl
    | num q => rfl
    | str s => rfl
    | vmap es => rfl

/-- C5, witness for the amended theorem at `[a,b] := ["x", 1]` and the
mismatch `[a,b] := [5]`. -/
theorem destructuring_assignment_witness :
    (assignEval ["a", "b"] (.ok (.list [.str "x", .num 1])) []).2.1 = none ∧
    ((assignEval ["a", "b"] (.ok (.list [.str "x", .num 1])) []).2.2).getValue "a" =
      some (.str "x") ∧
    (assignEval ["a", "b"] (.ok (.list [.num 5])) []).2.1 = some (.rt .invalidState
      ("Assigned number of variables is different to number of values (" ++
        toString 2 ++ " variables vs " ++ toString 1 ++ " values)")) := by
  have h := destructuring_assignment ["a", "b"] [.str "x", .num 1] (.num 7) []
    (by decide) (by decide)
  have h2 := destructuring_assignment ["a", "b"] [.num 5] (.num 7) []
    (by decide) (by decide)
  refine ⟨(h.1 (by decide)).1, ?_, by simpa using h2.2.1 (by decide)⟩
  have := (h.1 (by decide)).2 0 (by decide) (by decide)
  simpa using this

/--
C6, counterexample.  In a guarded loop `for <guard> { break }` the
`EndOfIteration` sentinel raised by `break` is *not* consumed by the
loop frame: the guarded branch of `loopRuntime.Eval` clears only
`ContinueIteration`, so the loop's own evaluation returns the
`EndOfIteration` error (here with a guard that is the literal
`true`).
-/
theorem break_in_guarded_loop_counterexample :
    loopGuarded (fun vs => (.ok true, vs)) breakEval 5 [] =
      some (some (.rt .endOfIteration ""), []) := rfl

/-- A for-in loop whose body raises `ContinueIteration` finishes all
iterations without a user-visible error. -/
theorem loopInVals_continue_ok :
    ∀ (l : List GoVal) (vs : Scope),
      (loopInVals ["a"] continueEval l vs).1 = none := by
  intro l
  induction l with
  | nil => intro vs; rfl
  | cons v rest ih => intro vs; exact ih (vs.setValue "a" v)

/--
C6, amended.  `break` raises the `EndOfIteration` sentinel and
`continue` raises the `ContinueIteration` sentinel.  A for-in loop
frame consumes both: a body that breaks ends the loop without a
user-visible error, and a body that continues skips to the next
iteration and the loop finishes cleanly.  A guarded loop frame
consumes only `ContinueIteration`; `break`'s `EndOfIteration`
propagates out of a guarded loop as the loop's own error (reaching an
enclosing for-in frame or the user).
-/
theorem break_continue_sentinels (vs : Scope) (l : List GoVal) :
    breakEval vs = (some (.rt .endOfIteration ""), vs) ∧
    continueEval vs = (some (.rt .continueIteration ""), vs) ∧
    (loopInVals ["a"] breakEval l vs).1 = none ∧
    (loopInVals ["a"] continueEval l vs).1 = none ∧
    loopGuarded
        (fun vs2 => (.ok (match vs2.getValue "go" with
          | some (.boolean true) => true
          | _ => false), vs2))
        (fun vs2 => (some (.rt .continueIteration ""),
          vs2.setValue "go" (.boolean false)))
        5 [("go", .boolean true)] =
      some (none, [("go", .boolean false)]) ∧
    loopGuarded (fun vs2 => (.ok true, vs2)) breakEval 5 vs =
      some (some (.rt .endOfIteration ""), vs) := by
  refine ⟨rfl, rfl, ?_, loopInVals_continue_ok l vs, rfl, rfl⟩
  cases l with
  | nil => rfl
  | cons v rest => rfl

/--
C7, counterexample.  For a node label that is not registered in
`providerMap` the registry produces the invalid evaluator, but its
`Validate()` and `Eval()` fail with an `InvalidConstruct` error
(`Invalid construct (Unknown node: …)`, as the repo's own
`TestGeneralErrorCases` requires) — not with `UnknownConstruct` as the
claim states.
-/
theorem node_registry_unknown_label_counterexample :
    runtimeFor "foo" = .invalidInst "foo" ∧
    invalidRuntimeValidate "foo" = .error (.rt .invalidConstruct "Unknown node: foo") ∧
    invalidRuntimeEval "foo" = .error (.rt .invalidConstruct "Unknown node: foo") ∧
    ErrKind.invalidConstruct ≠ ErrKind.unknownConstruct := by
  refine ⟨by decide, rfl, rfl, by decide⟩

/--
C7, amended.  For every AST node whose label is not registered in the
node-runtime registry, the registry produces the invalid evaluator,
whose `Validate()` and `Eval()` both fail with an `InvalidConstruct`
error carrying the detail `Unknown node: <label>`.
-/
theorem node_registry_unknown_label (label : String)
    (h : ∀ p ∈ providerMap, p.1 ≠ label) :
    runtimeFor label = .invalidInst label ∧
    invalidRuntimeValidate label =
      .error (.rt .invalidConstruct ("Unknown node: " ++ label)) ∧
    invalidRuntimeEval label =
      .error (.rt .invalidConstruct ("Unknown node: " ++ label)) := by
  refine ⟨?_, rfl, rfl⟩
  unfold runtimeFor
  rw [List.find?_eq_none.2 (by intro p hp; simpa using h p hp)]

/-- C7, witness for the amended theorem at the unregistered label
`"foo"`. -/
theorem node_registry_unknown_label_witness :
    runtimeFor "foo" = .invalidInst "foo" ∧
    invalidRuntimeValidate "foo" =
      .error (.rt .invalidConstruct ("Unknown node: " ++ "foo")) ∧
    invalidRuntimeEval "foo" =
      .error (.rt .invalidConstruct ("Unknown node: " ++ "foo")) :=
  node_registry_unknown_label "foo" (by decide)

/--
C9.  `splitModuleAndName` splits a dotted name at its first dot: for
`m ++ "." ++ rest` with `m` dot-free it returns `(m, rest)` with the
full tail `rest` preserved unchanged (later dots are not collapsed,
since `SplitN(…, 2)` produces at most one tail part and joining one
part changes nothing); for a name without a dot it returns
`(name, "")`.
-/
theorem split_module_and_name (m rest s : String)
    (hm : '.' ∉ m.toList) (hs : '.' ∉ s.toList) :
    splitModuleAndName (m ++ "." ++ rest) = (m, rest) ∧
    splitModuleAndName s = (s, "") := by
  constructor
  · unfold splitModuleAndName
    have hdata : (m ++ "." ++ rest).toList = m.toList ++ '.' :: rest.toList := by
      show (m ++ "." ++ rest).data = m.data ++ '.' :: rest.data
      rw [String.data_append, String.data_append, List.append_assoc]
      rfl
    rw [hdata, splitFirstDot_append _ _ hm]
    rfl
  · unfold splitModuleAndName
    rw [splitFirstDot_of_not_mem _ hs]

/-- C9, witness: `splitModuleAndName "fmt.Sprint.x" = ("fmt",
"Sprint.x")` and `splitModuleAndName "a" = ("a", "")`. -/
theorem split_module_and_name_witness :
    splitModuleAndName ("fmt" ++ "." ++ "Sprint.x") = ("fmt", "Sprint.x") ∧
    splitModuleAndName "a" = ("a", "") :=
  split_module_and_name "fmt" "Sprint.x" "a" (by decide) (by decide)

/--
C10.  For every assignment statement (simple or destructuring), the
evaluation result value is `nil` — on success and on error alike:
`assignmentRuntime.Eval` returns `(nil, err)` on every path.
-/
theorem assignment_result_is_nil (leftSide : List String)
    (rhs : Except Err GoVal) (vs : Scope) :
    (assignEval leftSide rhs vs).1 = none := by
  cases rhs with
  | error e => rfl
  | ok val =>
    by_cases h : leftSide.length = 1
    · simp [assignEval, h]
    · simp only [assignEval, dif_neg h]
      cases val <;> simp [apply_ite]

/--
C8, counterexample.  For a thread id with no suspended thread (no
interrogation state, or a running one), `ExtractValue` and
`InjectValue` fail — but with the plain Go error
`Cannot find suspended thread <tid>` built by `fmt.Errorf`, not with
a typed `InvalidState` runtime error as the claim states.  The
debugger (global scope and all thread scopes) is unmodified.
-/
theorem debugger_not_suspended_counterexample :
    extractValue ⟨[], some []⟩ 1 "x" "y" =
      (some (.goErr "Cannot find suspended thread 1"), ⟨[], some []⟩) ∧
    injectValue ⟨[], some []⟩ 1 "x" (fun _ => .ok .null) =
      (some (.goErr "Cannot find suspended thread 1"), ⟨[], some []⟩) ∧
    Err.isInvalidState (.goErr "Cannot find suspended thread 1") = false ∧
    extractValue ⟨[(1, ⟨true, []⟩)], some []⟩ 1 "x" "y" =
      (some (.goErr "Cannot find suspended thread 1"),
        ⟨[(1, ⟨true, []⟩)], some []⟩) := by
  refine ⟨rfl, rfl, rfl, rfl⟩

/--
C8, amended.  With a global scope present: for every thread id that
does not identify a currently suspended thread, both
`ExtractValue(tid, name, dest)` and `InjectValue(tid, name, expr)`
fail with the plain error `Cannot find suspended thread <tid>` (an
untyped `fmt.Errorf` error, not an `InvalidState` runtime error), and
neither the global scope nor any thread scope is modified (the
debugger is returned unchanged); when the thread is suspended and the
name is bound in its scope, `ExtractValue` copies the named value
from the suspended scope into the shared global scope under the
destination name, leaving the thread scopes unchanged.
-/
theorem debugger_extract_inject (ed : EcalDebugger) (g : Scope) (tid : ℕ)
    (n d : String) (expr : Scope → Except Err GoVal)
    (hg : ed.globalScope = some g) :
    (notSuspended ed tid →
      extractValue ed tid n d =
        (some (.goErr ("Cannot find suspended thread " ++ toString tid)), ed) ∧
      injectValue ed tid n expr =
        (some (.goErr ("Cannot find suspended thread " ++ toString tid)), ed)) ∧
    (∀ s val, ed.findIS tid = some s → s.running = false →
      s.vs.getValue n = some val →
      extractValue ed tid n d =
        (none, { ed with globalScope := some (g.setValue d val) })) := by
  constructor
  · intro hns
    constructor
    · unfold extractValue
      rw [hg]
      cases hfind : ed.findIS tid with
      | none => rfl
      | some s =>
        have hrun : s.running = true := hns s hfind
        dsimp only
        rw [hrun]
        rfl
    · unfold injectValue
      rw [hg]
      cases hfind : ed.findIS tid with
      | none => rfl
      | some s =>
        have hrun : s.running = true := hns s hfind
        dsimp only
        rw [hrun]
        rfl
  · intro s val hfind hrun hget
    unfold extractValue
    rw [hg, hfind]
    dsimp only
    rw [hrun]
    rw [hget]
    rfl

/-- C8, witness for the amended theorem: a debugger with one
suspended thread (id 1, scope `x = 3`) and an empty global scope;
thread 2 is not suspended. -/
theorem debugger_extract_inject_witness :
    extractValue ⟨[(1, ⟨false, [("x", .num 3)]⟩)], some []⟩ 1 "x" "y" =
      (none, ⟨[(1, ⟨false, [("x", .num 3)]⟩)], some [("y", .num 3)]⟩) ∧
    extractValue ⟨[(1, ⟨false, [("x", .num 3)]⟩)], some []⟩ 2 "x" "y" =
      (some (.goErr ("Cannot find suspended thread " ++ toString 2)),
        ⟨[(1, ⟨false, [("x", .num 3)]⟩)], some []⟩) := by
  have h := debugger_extract_inject ⟨[(1, ⟨false, [("x", .num 3)]⟩)], some []⟩ []
    1 "x" "y" (fun _ => .ok .null) rfl
  have h2 := debugger_extract_inject ⟨[(1, ⟨false, [("x", .num 3)]⟩)], some []⟩ []
    2 "x" "y" (fun _ => .ok .null) rfl
  constructor
  · simpa using h.2 ⟨false, [("x", .num 3)]⟩ (.num 3) rfl rfl rfl
  · exact (h2.1 (fun s hs => by simp [EcalDebugger.findIS] at hs)).1

end Ecal
